import Mathlib

/-! Overview.
Shallow embedding of the section-membership and join core of the
safenetwork-community/safe_network repository, together with proofs of
the behavioural claims about it.

The embedding covers:
* `Membership` and its operations (`src/sn/src/node/network_knowledge/membership.rs`);
* `NetworkKnowledge::new` and `update_knowledge_if_valid`
  (`src/sn/src/node/network_knowledge/mod.rs`);
* the join response loop (`src/sn/src/node/core/bootstrap/join.rs`).

Cryptography is modelled symbolically: a BLS or Ed25519 signature is a
record of the signing key and the signed payload, and verification is
equality of those components.  Machine integers (`u64` generations,
`usize` counts, `u8` ages) are modelled as `Nat`; none of the claims
concern wrap-around behaviour.  Code from external crates
(`sn_membership`, `secured_linked_list`, the prefix map and the
signature aggregator) that is not part of the repository sources is
modelled from the specification; each such definition carries a doc
comment starting with `Modelled from the spec:`.
-/

namespace SafeNet

/-- The errors surfaced by the modelled subsystems.  Rust keeps separate
`sn_membership::Error` and node `Error` enums; the model merges them into
one type since the subsystems never exchange error values.  The two
constructors `historyEntryWithoutDecision` and `assertFailedGenZero`
stand for the `panic!` in `section_member_states` and the
`assert!(gen > 0)` in `validate_node_state` respectively. -/
inductive Er where
  | untrustedProofChain
  | untrustedSectionAuthProvider
  | invalidGenesisKey (k : Nat)
  | nodeNotReachable (addr : Nat)
  | tryJoinLater
  | invalidState
  | keyNotFound
  | badGeneration (requestedGen : Nat) (gen : Nat)
  | invalidGeneration (g : Nat)
  | joinRequestForExistingMember
  | membersAtCapacity
  | leaveRequestForNonMember
  | attemptedFaultyProposal
  | historyEntryWithoutDecision (g : Nat)
  | assertFailedGenZero
deriving DecidableEq, Repr

/-! Section: Membership consensus (`membership.rs`)

Names in the membership subsystem are 256-bit `XorName`s; the model uses
`Nat`, which supplies the decidable equality and ordering the code uses
for `BTreeMap`/`BTreeSet` keys. -/

/-- XorName as used by the membership code: an ordered key. -/
abbrev XName := Nat

/-- MembershipState from `messaging::system` as matched in
`validate_node_state`: `Joined`, `Left`, or `Relocated(dst)`. -/
inductive MShipState where
  | joined
  | left
  | relocated (dst : XName)
deriving DecidableEq, Repr

/-- NodeState from `messaging::system` restricted to the fields the
membership code reads: the node's name and its membership state. -/
structure MNodeState where
  name : XName
  state : MShipState
deriving DecidableEq, Repr

/-- Voter identifier (`sn_membership::NodeId`). -/
abbrev NodeId := Nat

/-- Modelled from the spec: `sn_membership::vote::Ballot`.  The external
crate nests signed votes inside `Merge`/`SuperMajority` ballots; the
model keeps the flattened list of proposals that `SignedVote::proposals`
would return, which is all the membership code consumes. -/
inductive Ballot where
  | propose (ns : MNodeState)
  | merge (ps : List MNodeState)
  | superMajority (ps : List MNodeState)
deriving DecidableEq, Repr

/-- Modelled from the spec: `sn_membership::vote::Vote` with its
generation, ballot and fault set. -/
structure MVote where
  gen : Nat
  ballot : Ballot
  faults : List NodeId
deriving DecidableEq, Repr

/-- Modelled from the spec: `sn_membership::vote::SignedVote`; the
signature is represented by the voter id that produced it. -/
structure SignedVote where
  voter : NodeId
  vote : MVote
deriving DecidableEq, Repr

/-- Flattened proposal list of a signed vote (`SignedVote::proposals`). -/
def SignedVote.proposals (sv : SignedVote) : List MNodeState :=
  match sv.vote.ballot with
  | .propose ns => [ns]
  | .merge ps => ps
  | .superMajority ps => ps

/-- Modelled from the spec: a consensus `Decision` — the adopted
proposals of a generation, the votes that produced them and the fault
set, with signatures elided. -/
structure Decision where
  proposals : List MNodeState
  votes : List SignedVote
  faults : List NodeId
deriving DecidableEq, Repr

/-- Modelled from the spec: `sn_membership::consensus::Consensus` with
the fields the membership code touches: the key material
(`secret_key`, `elders`, `n_elders`), the in-flight votes keyed by
voter, the fault set, and the optional decision. -/
structure Consensus where
  secretKey : NodeId
  elders : Nat
  nElders : Nat
  votes : List (NodeId × SignedVote)
  faults : List NodeId
  decision : Option Decision
deriving DecidableEq, Repr

/-- Modelled from the spec: `Consensus::from` — a fresh consensus with no
votes, no faults and no decision. -/
def Consensus.init (secretKey : NodeId) (elders : Nat) (nElders : Nat) : Consensus :=
  { secretKey := secretKey, elders := elders, nElders := nElders
    votes := [], faults := [], decision := none }

/-- Insert-or-replace in an association list sorted by key, mirroring
`BTreeMap::insert`. -/
def alInsert {α : Type} (k : Nat) (v : α) : List (Nat × α) → List (Nat × α)
  | [] => [(k, v)]
  | (k₀, v₀) :: rest =>
    if k < k₀ then (k, v) :: (k₀, v₀) :: rest
    else if k = k₀ then (k, v) :: rest
    else (k₀, v₀) :: alInsert k v rest

/-- Lookup in an association list, mirroring `BTreeMap::get`. -/
def alGet {α : Type} (k : Nat) : List (Nat × α) → Option α
  | [] => none
  | (k₀, v₀) :: rest => if k = k₀ then some v₀ else alGet k rest

/-- Short-circuiting traversal, mirroring Rust's
`iter().map(f).collect::<Result<Vec<_>>>()`. -/
def exceptTraverse {α β : Type} (f : α → Except Er β) : List α → Except Er (List β)
  | [] => .ok []
  | x :: rest => do
    let y ← f x
    let ys ← exceptTraverse f rest
    .ok (y :: ys)

/-- Short-circuiting iteration, mirroring Rust's `try_for_each`. -/
def exceptIter {α : Type} (f : α → Except Er Unit) : List α → Except Er Unit
  | [] => .ok ()
  | x :: rest => do
    let _ ← f x
    exceptIter f rest

/-- Super-majority count used by the consensus crate: strictly more than
two thirds, i.e. `2n/3 + 1` voters. -/
def superMajorityCount (n : Nat) : Nat := 2 * n / 3 + 1

/-- Modelled from the spec: the per-generation vote response
(`sn_membership::consensus::VoteResponse`). -/
inductive VoteResponse where
  | waitingForMoreVotes
  | broadcast (sv : SignedVote)
  | decided (d : Decision)
deriving DecidableEq, Repr

/-- Modelled from the spec: `Consensus::handle_signed_vote` of the
external `sn_membership` crate.  A consensus that already holds a
decision is immutable and simply reports it (anti-entropy replay is
idempotent); otherwise the vote is merged into the vote map and, once a
super-majority of the elders have voted, the collected proposals are
adopted as the decision. -/
def Consensus.handleSignedVote (c : Consensus) (sv : SignedVote) :
    Except Er (Consensus × VoteResponse) :=
  match c.decision with
  | some d => .ok (c, .decided d)
  | none =>
    let votes := alInsert sv.voter sv c.votes
    if superMajorityCount c.nElders ≤ votes.length then
      let d : Decision :=
        { proposals := (votes.map (fun p => p.2.proposals)).flatten.dedup
          votes := votes.map Prod.snd
          faults := c.faults }
      .ok ({ c with votes := votes, decision := some d }, .decided d)
    else
      .ok ({ c with votes := votes }, .waitingForMoreVotes)

/-- Modelled from the spec: `Consensus::sign_vote` — wraps a vote with
this voter's identity. -/
def Consensus.signVote (c : Consensus) (v : MVote) : Except Er SignedVote :=
  .ok { voter := c.secretKey, vote := v }

/-- Modelled from the spec: `Consensus::cast_vote` — records our own
signed vote in the vote map and returns it for broadcast. -/
def Consensus.castVote (c : Consensus) (sv : SignedVote) :
    Consensus × SignedVote :=
  ({ c with votes := alInsert sv.voter sv c.votes }, sv)

/-- Modelled from the spec: `Consensus::detect_byzantine_voters` — a
voter that already cast a different vote at this generation is faulty. -/
def Consensus.detectByzantine (c : Consensus) (sv : SignedVote) : Except Er Unit :=
  match alGet sv.voter c.votes with
  | some prev => if prev = sv then .ok () else .error .attemptedFaultyProposal
  | none => .ok ()

/-- Modelled from the spec: `Consensus::build_super_majority_vote` — the
reconstructed super-majority ballot for a decided generation, signed by
this node. -/
def Consensus.buildSuperMajorityVote (c : Consensus) (votes : List SignedVote)
    (faults : List NodeId) (gen : Nat) : Except Er SignedVote :=
  .ok { voter := c.secretKey
        vote := { gen := gen
                  ballot := .superMajority (votes.map SignedVote.proposals).flatten.dedup
                  faults := faults } }

/-- SOFT_MAX_MEMBERS from `membership.rs`. -/
def SOFT_MAX_MEMBERS : Nat := 21

/-- The `Membership` struct of `membership.rs`: the in-progress
consensus, the bootstrap member set, the last decided generation and the
history of decided consensus instances keyed by generation.  The
`BTreeSet`/`BTreeMap` containers are lists kept in key order. -/
structure Membership where
  consensus : Consensus
  bootstrapMembers : List MNodeState
  gen : Nat
  history : List (Nat × Consensus)
deriving DecidableEq, Repr

/-- `Membership::from`. -/
def Membership.init (secretKey : NodeId) (elders : Nat) (nElders : Nat)
    (bootstrapMembers : List MNodeState) : Membership :=
  { consensus := Consensus.init secretKey elders nElders
    bootstrapMembers := bootstrapMembers
    gen := 0
    history := [] }

/-- `Membership::consensus_at_gen`: the in-progress consensus for
`gen = self.gen + 1`, otherwise the history entry, otherwise
`BadGeneration`. -/
def Membership.consensusAtGen (m : Membership) (gen : Nat) : Except Er Consensus :=
  if gen = m.gen + 1 then .ok m.consensus
  else
    match alGet gen m.history with
    | some c => .ok c
    | none => .error (.badGeneration gen m.gen)

/-- Member-map folding step of `section_member_states`: walk the history
in ascending generation order, overlaying each decision's proposals,
stopping at the requested generation. -/
def sectionMemberStatesGo (gen : Nat) (members : List (Nat × MNodeState)) :
    List (Nat × Consensus) → Except Er (List (Nat × MNodeState))
  | [] => .error (.invalidGeneration gen)
  | (hgen, c) :: rest =>
    match c.decision with
    | none => .error (.historyEntryWithoutDecision hgen)
    | some d =>
      let members := d.proposals.foldl (fun acc ns => alInsert ns.name ns acc) members
      if hgen = gen then .ok members
      else sectionMemberStatesGo gen members rest

/-- `Membership::section_member_states`: the member map at a generation,
built from the bootstrap members overlaid with every decision up to and
including that generation.  The `panic!` on a history entry without a
decision is modelled as the error `historyEntryWithoutDecision`. -/
def Membership.sectionMemberStates (m : Membership) (gen : Nat) :
    Except Er (List (Nat × MNodeState)) :=
  if gen = 0 then
    .ok (m.bootstrapMembers.foldl (fun acc n => alInsert n.name n acc) [])
  else
    sectionMemberStatesGo gen
      (m.bootstrapMembers.foldl (fun acc n => alInsert n.name n acc) []) m.history

/-- Body of `Membership::validate_node_state` once the member map at the
previous generation is in hand: the `match node_state.state` at lines
179–200 of `membership.rs`. -/
def validateNodeStateAgainst (ns : MNodeState) (members : List (Nat × MNodeState)) :
    Except Er Unit :=
  match ns.state with
  | .joined =>
    if (alGet ns.name members).isSome then
      .error .joinRequestForExistingMember
    else if SOFT_MAX_MEMBERS ≤ members.length then
      .error .membersAtCapacity
    else .ok ()
  | .left =>
    match alGet ns.name members with
    | some prev =>
      if prev.state = .joined then .ok () else .error .leaveRequestForNonMember
    | none => .error .leaveRequestForNonMember
  | .relocated _ =>
    match alGet ns.name members with
    | some prev =>
      if prev.state = .joined then .ok () else .error .leaveRequestForNonMember
    | none => .error .leaveRequestForNonMember

/-- `Membership::validate_node_state`.  The `assert!(gen > 0)` is
modelled as the error `assertFailedGenZero`. -/
def Membership.validateNodeState (m : Membership) (ns : MNodeState) (gen : Nat) :
    Except Er Unit :=
  if gen = 0 then .error .assertFailedGenZero
  else
    match m.sectionMemberStates (gen - 1) with
    | .error e => .error e
    | .ok members => validateNodeStateAgainst ns members

/-- `Membership::validate_proposals`: require a consensus instance for
the vote's generation, then validate each proposal. -/
def Membership.validateProposals (m : Membership) (sv : SignedVote) : Except Er Unit := do
  let _ ← m.consensusAtGen sv.vote.gen
  exceptIter (fun ns => m.validateNodeState ns sv.vote.gen) sv.proposals

/-- `Membership::handle_signed_vote`: validate, route the vote to the
consensus instance for its generation, and if the in-progress consensus
(generation `self.gen + 1`) has decided, archive it in history, install
a fresh consensus and advance `self.gen`. -/
def Membership.handleSignedVote (m : Membership) (sv : SignedVote) :
    Except Er (Membership × VoteResponse) := do
  let _ ← m.validateProposals sv
  let voteGen := sv.vote.gen
  if voteGen = m.gen + 1 then
    let (c, resp) ← m.consensus.handleSignedVote sv
    if c.decision.isSome then
      let next := Consensus.init c.secretKey c.elders c.nElders
      .ok ({ m with consensus := next
                    history := alInsert voteGen c m.history
                    gen := voteGen }, resp)
    else
      .ok ({ m with consensus := c }, resp)
  else
    match alGet voteGen m.history with
    | some c => do
      let (c, resp) ← c.handleSignedVote sv
      .ok ({ m with history := alInsert voteGen c m.history }, resp)
    | none => .error (.badGeneration voteGen m.gen)

/-- `Membership::propose`: build a `Propose` vote for generation
`self.gen + 1`, sign it, validate it, check it is not Byzantine and cast
it. -/
def Membership.propose (m : Membership) (ns : MNodeState) :
    Except Er (Membership × SignedVote) := do
  let vote : MVote := { gen := m.gen + 1, ballot := .propose ns, faults := m.consensus.faults }
  let signedVote ← m.consensus.signVote vote
  let _ ← m.validateProposals signedVote
  let _ ← m.consensus.detectByzantine signedVote
  let (c, sv) := m.consensus.castVote signedVote
  .ok ({ m with consensus := c }, sv)

/-- `Membership::anti_entropy`: one reconstructed super-majority vote per
decided history generation strictly above `from_gen`, in history order,
followed by the in-progress votes. -/
def Membership.antiEntropy (m : Membership) (fromGen : Nat) :
    Except Er (List SignedVote) := do
  let decided := (m.history.filter (fun p => fromGen < p.1)).filterMap
    (fun p => p.2.decision.map (fun d => (p.1, p.2, d)))
  let msgs ← exceptTraverse
    (fun x => x.2.1.buildSuperMajorityVote x.2.2.votes x.2.2.faults x.1) decided
  .ok (msgs ++ m.consensus.votes.map Prod.snd)

/-- `Membership::cast_vote`: delegate to the in-progress consensus. -/
def Membership.castVote (m : Membership) (sv : SignedVote) : Membership × SignedVote :=
  let (c, out) := m.consensus.castVote sv
  ({ m with consensus := c }, out)

/-- The invariant the membership history maintains: every archived entry
is for a generation in `[1, self.gen]` and holds a decision, and the
entries are in strictly ascending generation order. -/
def Membership.histInv (m : Membership) : Prop :=
  (∀ p ∈ m.history, 1 ≤ p.1 ∧ p.1 ≤ m.gen ∧ p.2.decision.isSome) ∧
  m.history.Pairwise (fun a b => a.1 < b.1)

instance (m : Membership) : Decidable m.histInv := by
  unfold Membership.histInv
  infer_instance

/-! Section: Association-list lemmas -/

theorem alGet_alInsert_self {α : Type} (k : Nat) (v : α) (l : List (Nat × α)) :
    alGet k (alInsert k v l) = some v := by
  induction l with
  | nil => simp [alInsert, alGet]
  | cons hd tl ih =>
    obtain ⟨k₀, v₀⟩ := hd
    by_cases h₁ : k < k₀
    · simp [alInsert, h₁, alGet]
    · by_cases h₂ : k = k₀
      · simp [alInsert, h₁, h₂, alGet]
      · simp [alInsert, h₁, h₂, alGet, ih]

theorem alGet_alInsert_ne {α : Type} (k k' : Nat) (v : α) (l : List (Nat × α))
    (h : k' ≠ k) : alGet k' (alInsert k v l) = alGet k' l := by
  induction l with
  | nil => simp [alInsert, alGet, h]
  | cons hd tl ih =>
    obtain ⟨k₀, v₀⟩ := hd
    by_cases h₁ : k < k₀
    · simp [alInsert, h₁, alGet, h]
    · by_cases h₂ : k = k₀
      · subst h₂
        simp [alInsert, h₁, alGet, h]
      · by_cases h₃ : k' = k₀ <;> simp [alInsert, h₁, h₂, alGet, h₃, ih]

theorem alGet_of_mem_pairwise {α : Type} (l : List (Nat × α)) (p : Nat × α)
    (hp : p ∈ l) (hs : l.Pairwise (fun a b => a.1 < b.1)) :
    alGet p.1 l = some p.2 := by
  induction l with
  | nil => cases hp
  | cons hd tl ih =>
    rcases List.mem_cons.mp hp with h | h
    · subst h
      simp [alGet]
    · have hlt : hd.1 < p.1 := (List.pairwise_cons.mp hs).1 p h
      have : p.1 ≠ hd.1 := by omega
      simp only [alGet, if_neg this]
      exact ih h (List.pairwise_cons.mp hs).2

/-! Section: Claim C1 -/

theorem validateNodeState_eq (m : Membership) (ns : MNodeState) (g : Nat)
    (hg : g ≠ 0) (members : List (Nat × MNodeState))
    (hm : m.sectionMemberStates (g - 1) = .ok members) :
    m.validateNodeState ns g = validateNodeStateAgainst ns members := by
  unfold Membership.validateNodeState
  rw [if_neg hg, hm]

/-- C1: for every membership state and proposal at generation `g ≥ 1`,
validated against the member map at generation `g - 1`: a `Joined`
proposal is accepted iff the name is not already a member and the member
count is strictly below `SOFT_MAX_MEMBERS` (21), failing with
`JoinRequestForExistingMember` when the name is a member and with
`MembersAtCapacity` when the count is at or above the limit; a `Left` or
`Relocated` proposal is accepted iff the name's state at generation
`g - 1` is `Joined`, failing with `LeaveRequestForNonMember`
otherwise. -/
theorem c1_validate_node_state (m : Membership) (ns : MNodeState) (g : Nat)
    (hg : 1 ≤ g) (members : List (Nat × MNodeState))
    (hm : m.sectionMemberStates (g - 1) = .ok members) :
    (ns.state = .joined →
      (m.validateNodeState ns g = .ok () ↔
        alGet ns.name members = none ∧ members.length < SOFT_MAX_MEMBERS) ∧
      ((alGet ns.name members).isSome →
        m.validateNodeState ns g = .error .joinRequestForExistingMember) ∧
      (alGet ns.name members = none → SOFT_MAX_MEMBERS ≤ members.length →
        m.validateNodeState ns g = .error .membersAtCapacity)) ∧
    ((ns.state = .left ∨ (∃ d, ns.state = .relocated d)) →
      (m.validateNodeState ns g = .ok () ↔
        ∃ prev, alGet ns.name members = some prev ∧ prev.state = .joined) ∧
      (¬ (∃ prev, alGet ns.name members = some prev ∧ prev.state = .joined) →
        m.validateNodeState ns g = .error .leaveRequestForNonMember)) := by
  have hg0 : g ≠ 0 := by omega
  rw [validateNodeState_eq m ns g hg0 members hm]
  unfold validateNodeStateAgainst
  constructor
  · intro hj
    rw [hj]
    refine ⟨?_, ?_, ?_⟩
    · cases hget : alGet ns.name members with
      | some prev => simp [hget, SOFT_MAX_MEMBERS]
      | none =>
        by_cases hlen : SOFT_MAX_MEMBERS ≤ members.length <;>
          simp [hget, hlen] <;> omega
    · intro hsome
      cases hget : alGet ns.name members with
      | some prev => simp [hget]
      | none => rw [hget] at hsome; simp at hsome
    · intro hget hlen
      simp [hget, hlen, Nat.not_lt_of_le]
  · intro hlr
    rcases hlr with h | ⟨d, h⟩ <;>
    · rw [h]
      constructor
      · cases hget : alGet ns.name members with
        | some prev =>
          by_cases hjs : prev.state = .joined <;> simp [hget, hjs]
        | none => simp [hget]
      · intro hnone
        cases hget : alGet ns.name members with
        | some prev =>
          have hne : prev.state ≠ .joined := by
            intro hc
            exact hnone ⟨prev, hget, hc⟩
          simp [hget, hne]
        | none => simp [hget]

/-- Witness for C1 at a concrete state: one bootstrap member named 5 at
generation 1; re-joining 5 is rejected as an existing member, and node 7
leaving is rejected as a non-member. -/
theorem c1_validate_node_state_witness :
    (Membership.init 0 0 1 [⟨5, .joined⟩]).validateNodeState ⟨5, .joined⟩ 1 =
      .error .joinRequestForExistingMember ∧
    (Membership.init 0 0 1 [⟨5, .joined⟩]).validateNodeState ⟨7, .left⟩ 1 =
      .error .leaveRequestForNonMember := by
  constructor
  · exact ((c1_validate_node_state (Membership.init 0 0 1 [⟨5, .joined⟩]) ⟨5, .joined⟩ 1
      (by decide) [(5, ⟨5, .joined⟩)] rfl).1 rfl).2.1 rfl
  · exact ((c1_validate_node_state (Membership.init 0 0 1 [⟨5, .joined⟩]) ⟨7, .left⟩ 1
      (by decide) [(5, ⟨5, .joined⟩)] rfl).2 (Or.inl rfl)).2 (by simp [alGet])

/-! Section: Claim C2 -/

/-- C2: the in-progress consensus instance is the one for generation
`self.gen + 1`; when `handle_signed_vote` processes a vote for
generation `self.gen + 1` after which that consensus holds a decision,
the decided consensus is moved into history keyed by that generation, a
fresh consensus replaces it, and `self.gen` advances by exactly one;
votes for any other generation never change `self.gen` or the current
consensus slot. -/
theorem c2_generation_advance (m : Membership) (sv : SignedVote) :
    m.consensusAtGen (m.gen + 1) = .ok m.consensus ∧
    (∀ m' resp c r, sv.vote.gen = m.gen + 1 →
      m.consensus.handleSignedVote sv = .ok (c, r) →
      c.decision.isSome →
      m.handleSignedVote sv = .ok (m', resp) →
      alGet (m.gen + 1) m'.history = some c ∧
      m'.consensus = Consensus.init c.secretKey c.elders c.nElders ∧
      m'.gen = m.gen + 1) ∧
    (∀ m' resp, sv.vote.gen ≠ m.gen + 1 →
      m.handleSignedVote sv = .ok (m', resp) →
      m'.gen = m.gen ∧ m'.consensus = m.consensus) := by
  refine ⟨?_, ?_, ?_⟩
  · unfold Membership.consensusAtGen
    rw [if_pos rfl]
  · intro m' resp c r hvg hc hdec hok
    unfold Membership.handleSignedVote at hok
    cases hval : m.validateProposals sv with
    | error e => rw [hval] at hok; simp [Bind.bind, Except.bind] at hok
    | ok u =>
      rw [hval] at hok
      simp only [Bind.bind, Except.bind, hvg, if_pos rfl, hc, hdec, if_true] at hok
      obtain ⟨hm', _⟩ := Prod.mk.injEq .. ▸ (Except.ok.injEq .. ▸ hok)
      subst hm'
      exact ⟨alGet_alInsert_self _ _ _, rfl, rfl⟩
  · intro m' resp hvg hok
    unfold Membership.handleSignedVote at hok
    cases hval : m.validateProposals sv with
    | error e => rw [hval] at hok; simp [Bind.bind, Except.bind] at hok
    | ok u =>
      rw [hval] at hok
      simp only [Bind.bind, Except.bind, if_neg hvg] at hok
      cases hget : alGet sv.vote.gen m.history with
      | none => rw [hget] at hok; simp at hok
      | some c₀ =>
        rw [hget] at hok
        cases hstep : c₀.handleSignedVote sv with
        | error e => simp [hstep] at hok
        | ok p =>
          simp [hstep] at hok
          obtain ⟨hm', hr⟩ := hok
          subst hm'
          exact ⟨rfl, rfl⟩

/-- Concrete single-elder membership used by the C2 witness. -/
def c2State : Membership := Membership.init 0 0 1 []

/-- Concrete proposal vote at generation 1 used by the C2 witness. -/
def c2Vote : SignedVote := ⟨3, ⟨1, .propose ⟨5, .joined⟩, []⟩⟩

/-- Result of the inner consensus step in the C2 witness scenario. -/
def c2Inner : Consensus × VoteResponse :=
  (Consensus.handleSignedVote c2State.consensus c2Vote).toOption.getD
    (Consensus.init 0 0 1, .waitingForMoreVotes)

/-- Result of `handle_signed_vote` in the C2 witness scenario. -/
def c2After : Membership × VoteResponse :=
  (Membership.handleSignedVote c2State c2Vote).toOption.getD
    (c2State, .waitingForMoreVotes)

/-- Witness for C2 at a single-elder membership where one proposal vote
at generation 1 decides immediately: the decided consensus is archived
at generation 1, a fresh consensus is installed, and the generation
advances to 1. -/
theorem c2_generation_advance_witness :
    alGet 1 c2After.1.history = some c2Inner.1 ∧
    c2After.1.consensus =
      Consensus.init c2Inner.1.secretKey c2Inner.1.elders c2Inner.1.nElders ∧
    c2After.1.gen = c2State.gen + 1 :=
  (c2_generation_advance c2State c2Vote).2.1 c2After.1 c2After.2 c2Inner.1 c2Inner.2
    rfl rfl rfl rfl

/-! Section: Claim C7 -/

theorem exceptTraverse_ok {α β : Type} (f : α → Except Er β) (g : α → β)
    (h : ∀ x, f x = .ok (g x)) : ∀ l, exceptTraverse f l = .ok (l.map g) := by
  intro l
  induction l with
  | nil => rfl
  | cons x rest ih =>
    simp [exceptTraverse, h x, ih, Bind.bind, Except.bind]

/-- The reconstructed super-majority vote for a decided history entry
`(gen, consensus, decision)`. -/
def smVoteOf (x : Nat × Consensus × Decision) : SignedVote :=
  { voter := x.2.1.secretKey
    vote := { gen := x.1
              ballot := .superMajority (x.2.2.votes.map SignedVote.proposals).flatten.dedup
              faults := x.2.2.faults } }

theorem filterMapDec_fst (l : List (Nat × Consensus))
    (h : ∀ p ∈ l, p.2.decision.isSome) :
    (l.filterMap (fun p => p.2.decision.map (fun d => (p.1, p.2, d)))).map
      (fun x => x.1) = l.map Prod.fst := by
  induction l with
  | nil => rfl
  | cons p rest ih =>
    have hp := h p (List.mem_cons_self ..)
    cases hd : p.2.decision with
    | none => rw [hd] at hp; simp at hp
    | some d =>
      simp [List.filterMap_cons, hd,
        ih (fun q hq => h q (List.mem_cons_of_mem _ hq))]

/-- C7: `anti_entropy(from_gen)` returns one reconstructed
super-majority vote per decided generation strictly greater than
`from_gen`, in ascending generation order, followed by the votes of the
current in-progress consensus. -/
theorem c7_anti_entropy (m : Membership) (fromGen : Nat) (hinv : m.histInv) :
    ∃ pre, m.antiEntropy fromGen = .ok (pre ++ m.consensus.votes.map Prod.snd) ∧
      pre.map (fun v => v.vote.gen) =
        (m.history.filter (fun p => fromGen < p.1)).map Prod.fst ∧
      (pre.map (fun v => v.vote.gen)).Pairwise (· < ·) ∧
      (∀ v ∈ pre, ∃ c d, alGet v.vote.gen m.history = some c ∧
        c.decision = some d ∧
        c.buildSuperMajorityVote d.votes d.faults v.vote.gen = .ok v) := by
  obtain ⟨hdec, hsort⟩ := hinv
  refine ⟨((m.history.filter (fun p => fromGen < p.1)).filterMap
      (fun p => p.2.decision.map (fun d => (p.1, p.2, d)))).map smVoteOf,
    ?_, ?_, ?_, ?_⟩
  · have ht := exceptTraverse_ok
      (fun x => x.2.1.buildSuperMajorityVote x.2.2.votes x.2.2.faults x.1) smVoteOf
      (fun x => rfl)
      ((m.history.filter (fun p => fromGen < p.1)).filterMap
        (fun p => p.2.decision.map (fun d => (p.1, p.2, d))))
    show (do
        let msgs ← exceptTraverse
          (fun (x : Nat × Consensus × Decision) =>
            x.2.1.buildSuperMajorityVote x.2.2.votes x.2.2.faults x.1)
          ((m.history.filter (fun (p : Nat × Consensus) => fromGen < p.1)).filterMap
            (fun (p : Nat × Consensus) => p.2.decision.map (fun d => (p.1, p.2, d))))
        Except.ok (msgs ++ m.consensus.votes.map Prod.snd)) = _
    rw [ht]
    rfl
  · rw [List.map_map]
    exact filterMapDec_fst _ (fun p hp => (hdec p (List.mem_of_mem_filter hp)).2.2)
  · rw [List.map_map]
    have : ((m.history.filter (fun p => fromGen < p.1)).filterMap
        (fun p => p.2.decision.map (fun d => (p.1, p.2, d)))).map
          ((fun v => v.vote.gen) ∘ smVoteOf) =
        (m.history.filter (fun p => fromGen < p.1)).map Prod.fst :=
      filterMapDec_fst _ (fun p hp => (hdec p (List.mem_of_mem_filter hp)).2.2)
    rw [this]
    rw [List.pairwise_map]
    exact hsort.filter _
  · intro v hv
    obtain ⟨x, hx, hveq⟩ := List.mem_map.mp hv
    obtain ⟨p, hpmem, hpx⟩ := List.mem_filterMap.mp hx
    cases hd : p.2.decision with
    | none => rw [hd] at hpx; exact Option.noConfusion hpx
    | some d =>
      rw [hd] at hpx
      simp only [Option.map_some', Option.some.injEq] at hpx
      subst hveq
      subst hpx
      refine ⟨p.2, d, ?_, hd, rfl⟩
      exact alGet_of_mem_pairwise _ p (List.mem_of_mem_filter hpmem) hsort

/-- Concrete membership for the C7 witness: two decided generations and
one in-progress vote. -/
def c7State : Membership :=
  { consensus :=
      { secretKey := 0, elders := 0, nElders := 2
        votes := [(4, ⟨4, ⟨3, .propose ⟨9, .joined⟩, []⟩⟩)]
        faults := [], decision := none }
    bootstrapMembers := []
    gen := 2
    history :=
      [ (1, { secretKey := 0, elders := 0, nElders := 2
              votes := [(4, ⟨4, ⟨1, .propose ⟨5, .joined⟩, []⟩⟩)]
              faults := []
              decision := some { proposals := [⟨5, .joined⟩]
                                 votes := [⟨4, ⟨1, .propose ⟨5, .joined⟩, []⟩⟩]
                                 faults := [] } })
      , (2, { secretKey := 0, elders := 0, nElders := 2
              votes := [(4, ⟨4, ⟨2, .propose ⟨6, .joined⟩, []⟩⟩)]
              faults := []
              decision := some { proposals := [⟨6, .joined⟩]
                                 votes := [⟨4, ⟨2, .propose ⟨6, .joined⟩, []⟩⟩]
                                 faults := [] } }) ] }

/-- Witness for C7: at `c7State` with `from_gen = 1`, the emitted prefix
holds exactly the super-majority vote of generation 2 and is followed by
the in-progress votes. -/
theorem c7_anti_entropy_witness :
    c7State.histInv ∧
    (∃ pre, c7State.antiEntropy 1 = .ok (pre ++ c7State.consensus.votes.map Prod.snd) ∧
      pre.map (fun v => v.vote.gen) =
        (c7State.history.filter (fun p => 1 < p.1)).map Prod.fst ∧
      (pre.map (fun v => v.vote.gen)).Pairwise (· < ·) ∧
      (∀ v ∈ pre, ∃ c d, alGet v.vote.gen c7State.history = some c ∧
        c.decision = some d ∧
        c.buildSuperMajorityVote d.votes d.faults v.vote.gen = .ok v)) :=
  ⟨by decide, c7_anti_entropy c7State 1 (by decide)⟩

/-! Section: Claim C8 -/

theorem alGet_mem {α : Type} (k : Nat) (v : α) (l : List (Nat × α))
    (h : alGet k l = some v) : (k, v) ∈ l := by
  induction l with
  | nil => simp [alGet] at h
  | cons hd tl ih =>
    obtain ⟨k₀, v₀⟩ := hd
    by_cases hk : k = k₀
    · subst hk
      simp [alGet] at h
      subst h
      exact List.mem_cons_self ..
    · simp only [alGet, if_neg hk] at h
      exact List.mem_cons_of_mem _ (ih h)

/-- C8: once a decided consensus has been written into history at
generation `g`, no later membership operation — `handle_signed_vote`
(including on a vote whose generation is `g`), `propose`, or
`cast_vote` — changes the stored entry `history[g]` or its decision. -/
theorem c8_history_immutable (m : Membership) (g : Nat) (c : Consensus)
    (hinv : m.histInv) (hg : alGet g m.history = some c) :
    (∀ sv m' r, m.handleSignedVote sv = .ok (m', r) →
      alGet g m'.history = some c) ∧
    (∀ ns m' sv, m.propose ns = .ok (m', sv) →
      alGet g m'.history = some c) ∧
    (∀ sv, (m.castVote sv).1.history = m.history) := by
  obtain ⟨hbound, hsort⟩ := hinv
  have hgmem := alGet_mem g c m.history hg
  have hgle : g ≤ m.gen := (hbound _ hgmem).2.1
  refine ⟨?_, ?_, fun sv => rfl⟩
  · intro sv m' r hok
    unfold Membership.handleSignedVote at hok
    cases hval : m.validateProposals sv with
    | error e => rw [hval] at hok; simp [Bind.bind, Except.bind] at hok
    | ok u =>
      rw [hval] at hok
      simp only [Bind.bind, Except.bind] at hok
      split at hok
      · split at hok
        · simp at hok
        · rename_i v heq
          split at hok
          · obtain ⟨hm', -⟩ := Prod.mk.injEq .. ▸ (Except.ok.injEq .. ▸ hok)
            subst hm'
            have hne : g ≠ sv.vote.gen := by omega
            rw [alGet_alInsert_ne _ _ _ _ hne]
            exact hg
          · obtain ⟨hm', -⟩ := Prod.mk.injEq .. ▸ (Except.ok.injEq .. ▸ hok)
            subst hm'
            exact hg
      · split at hok
        · rename_i c₀ hget
          have hc₀dec : c₀.decision.isSome :=
            (hbound _ (alGet_mem _ _ _ hget)).2.2
          cases hd : c₀.decision with
          | none => rw [hd] at hc₀dec; simp at hc₀dec
          | some d =>
            have hstep : c₀.handleSignedVote sv = .ok (c₀, .decided d) := by
              unfold Consensus.handleSignedVote
              rw [hd]
            rw [hstep] at hok
            obtain ⟨hm', -⟩ := Prod.mk.injEq .. ▸ (Except.ok.injEq .. ▸ hok)
            subst hm'
            by_cases hgg : g = sv.vote.gen
            · subst hgg
              rw [hget] at hg
              obtain rfl : c₀ = c := Option.some.injEq .. ▸ hg
              simp [alGet_alInsert_self]
            · rw [alGet_alInsert_ne _ _ _ _ hgg]
              exact hg
        · simp at hok
  · intro ns m' sv hok
    unfold Membership.propose at hok
    cases hval : m.validateProposals
        { voter := m.consensus.secretKey
          vote := { gen := m.gen + 1, ballot := .propose ns
                    faults := m.consensus.faults } } with
    | error e =>
      simp [Bind.bind, Except.bind, Consensus.signVote, hval] at hok
    | ok u =>
      simp only [Bind.bind, Except.bind, Consensus.signVote, hval] at hok
      cases hbyz : m.consensus.detectByzantine
          { voter := m.consensus.secretKey
            vote := { gen := m.gen + 1, ballot := .propose ns
                      faults := m.consensus.faults } } with
      | error e => simp [hbyz] at hok
      | ok v =>
        simp only [hbyz] at hok
        obtain ⟨hm', -⟩ := Prod.mk.injEq .. ▸ (Except.ok.injEq .. ▸ hok)
        subst hm'
        exact hg

/-- The decided consensus stored at generation 1 of `c7State`. -/
def c8HistEntry : Consensus :=
  (alGet 1 c7State.history).getD (Consensus.init 0 0 0)

/-- A super-majority replay vote for the already-decided generation 1 of
`c7State`. -/
def c8Replay : SignedVote := ⟨9, ⟨1, .superMajority [⟨5, .joined⟩], []⟩⟩

/-- Result of replaying `c8Replay` into `c7State`. -/
def c8After : Membership × VoteResponse :=
  (Membership.handleSignedVote c7State c8Replay).toOption.getD
    (c7State, .waitingForMoreVotes)

/-- Witness for C8: replaying a vote for decided generation 1 of
`c7State` leaves the stored entry unchanged, and so does casting a
vote. -/
theorem c8_history_immutable_witness :
    alGet 1 c8After.1.history = some c8HistEntry ∧
    (c7State.castVote c8Replay).1.history = c7State.history :=
  ⟨(c8_history_immutable c7State 1 c8HistEntry (by decide) rfl).1
      c8Replay c8After.1 c8After.2 rfl,
   (c8_history_immutable c7State 1 c8HistEntry (by decide) rfl).2.2 c8Replay⟩

/-! Section: Claim C10 -/

theorem sectionMemberStatesGo_no_assert (gen : Nat)
    (hist : List (Nat × Consensus)) :
    ∀ members, sectionMemberStatesGo gen members hist ≠ .error .assertFailedGenZero := by
  induction hist with
  | nil => intro members; simp [sectionMemberStatesGo]
  | cons p rest ih =>
    intro members
    obtain ⟨hgen, c⟩ := p
    unfold sectionMemberStatesGo
    cases c.decision with
    | none => simp
    | some d =>
      by_cases hq : hgen = gen
      · simp [hq]
      · simp only [hq, if_false]
        exact ih _

theorem validateNodeStateAgainst_no_assert (ns : MNodeState)
    (members : List (Nat × MNodeState)) :
    validateNodeStateAgainst ns members ≠ .error .assertFailedGenZero := by
  unfold validateNodeStateAgainst
  cases hs : ns.state with
  | joined =>
    by_cases h₁ : (alGet ns.name members).isSome
    · simp [h₁]
    · by_cases h₂ : SOFT_MAX_MEMBERS ≤ members.length <;> simp [h₁, h₂]
  | left =>
    cases hget : alGet ns.name members with
    | some prev => by_cases hjs : prev.state = .joined <;> simp [hget, hjs]
    | none => simp [hget]
  | relocated d =>
    cases hget : alGet ns.name members with
    | some prev => by_cases hjs : prev.state = .joined <;> simp [hget, hjs]
    | none => simp [hget]

theorem validateNodeState_no_assert (m : Membership) (ns : MNodeState) (g : Nat)
    (hg : g ≠ 0) : m.validateNodeState ns g ≠ .error .assertFailedGenZero := by
  cases hm : m.sectionMemberStates (g - 1) with
  | error e =>
    unfold Membership.validateNodeState
    rw [if_neg hg, hm]
    intro hc
    have he : e = .assertFailedGenZero := by simpa using hc
    subst he
    unfold Membership.sectionMemberStates at hm
    split at hm
    · exact absurd hm (by simp)
    · exact sectionMemberStatesGo_no_assert _ _ _ hm
  | ok members =>
    rw [validateNodeState_eq m ns g hg members hm]
    exact validateNodeStateAgainst_no_assert ns members

theorem exceptIter_no_assert {α : Type} (f : α → Except Er Unit)
    (h : ∀ x, f x ≠ .error .assertFailedGenZero) :
    ∀ l, exceptIter f l ≠ .error .assertFailedGenZero := by
  intro l
  induction l with
  | nil => simp [exceptIter]
  | cons x rest ih =>
    unfold exceptIter
    cases hx : f x with
    | error e =>
      simp only [Bind.bind, Except.bind]
      intro hc
      rw [hc] at hx
      exact h x hx
    | ok u => simpa [Bind.bind, Except.bind] using ih

/-- C10: under the history invariant, a signed vote whose generation is
0 makes `validate_proposals` fail with `BadGeneration` from the
`consensus_at_gen` lookup before `validate_node_state` ever runs, so the
`assert!(gen > 0)` (modelled as the `assertFailedGenZero` error) cannot
fire when votes are processed through `propose` or
`handle_signed_vote`. -/
theorem c10_gen_zero_no_panic (m : Membership) (sv : SignedVote)
    (hinv : m.histInv) (h0 : sv.vote.gen = 0) :
    m.validateProposals sv = .error (.badGeneration 0 m.gen) ∧
    m.handleSignedVote sv = .error (.badGeneration 0 m.gen) ∧
    (∀ ns, m.propose ns ≠ .error .assertFailedGenZero) := by
  obtain ⟨hbound, hsort⟩ := hinv
  have hlook : m.consensusAtGen 0 = .error (.badGeneration 0 m.gen) := by
    unfold Membership.consensusAtGen
    rw [if_neg (by omega)]
    cases hget : alGet 0 m.history with
    | some c₀ =>
      have := (hbound _ (alGet_mem _ _ _ hget)).1
      omega
    | none => rfl
  have hvp : m.validateProposals sv = .error (.badGeneration 0 m.gen) := by
    unfold Membership.validateProposals
    rw [h0, hlook]
    rfl
  refine ⟨hvp, ?_, ?_⟩
  · unfold Membership.handleSignedVote
    rw [hvp]
    rfl
  · intro ns hc
    unfold Membership.propose at hc
    simp only [Bind.bind, Except.bind, Consensus.signVote] at hc
    cases hval : m.validateProposals
        { voter := m.consensus.secretKey
          vote := { gen := m.gen + 1, ballot := .propose ns
                    faults := m.consensus.faults } } with
    | error e =>
      rw [hval] at hc
      simp only [Except.error.injEq] at hc
      subst hc
      unfold Membership.validateProposals at hval
      have hcg : m.consensusAtGen (m.gen + 1) = .ok m.consensus := by
        unfold Membership.consensusAtGen
        rw [if_pos rfl]
      rw [hcg] at hval
      simp only [Bind.bind, Except.bind] at hval
      exact exceptIter_no_assert _
        (fun x => validateNodeState_no_assert m x (m.gen + 1) (by omega)) _ hval
    | ok u =>
      rw [hval] at hc
      cases hbyz : m.consensus.detectByzantine
          { voter := m.consensus.secretKey
            vote := { gen := m.gen + 1, ballot := .propose ns
                      faults := m.consensus.faults } } with
      | error e =>
        rw [hbyz] at hc
        simp only [Except.error.injEq] at hc
        subst hc
        unfold Consensus.detectByzantine at hbyz
        split at hbyz
        · split at hbyz <;> simp_all
        · simp at hbyz
      | ok v => rw [hbyz] at hc; simp at hc

/-- Witness for C10 at the concrete two-generation state `c7State` with
a gen-0 proposal vote. -/
theorem c10_gen_zero_no_panic_witness :
    c7State.validateProposals ⟨4, ⟨0, .propose ⟨9, .joined⟩, []⟩⟩ =
      .error (.badGeneration 0 2) ∧
    c7State.handleSignedVote ⟨4, ⟨0, .propose ⟨9, .joined⟩, []⟩⟩ =
      .error (.badGeneration 0 2) :=
  ⟨(c10_gen_zero_no_panic c7State ⟨4, ⟨0, .propose ⟨9, .joined⟩, []⟩⟩
      (by decide) rfl).1,
   (c10_gen_zero_no_panic c7State ⟨4, ⟨0, .propose ⟨9, .joined⟩, []⟩⟩
      (by decide) rfl).2.1⟩

/-! Section: Network knowledge: keys, chains, SAPs, prefix map

Names in the join and network-knowledge subsystems are bit strings
(`XorName` viewed through `Prefix::matches`); the model uses `List Bool`
with prefix matching.  BLS and Ed25519 signatures are symbolic: a
signature records the signing key and the signed payload, and
verification is equality of those components. -/

/-- A BLS public key. -/
abbrev Key := Nat

/-- A socket address. -/
abbrev Addr := Nat

/-- A symbolic signature over a payload of type `α`. -/
structure KSig (α : Type) where
  signer : Key
  payload : α
deriving DecidableEq

/-- One link of a section chain: a key together with the signature of
its parent key over it. -/
structure SlhBlock where
  key : Key
  sig : KSig Key
deriving DecidableEq

/-- Modelled from the spec: `SecuredLinkedList` of the external
`secured_linked_list` crate, restricted to the linear proof chains the
embedded code passes around (branching is elided): a root key followed
by blocks, each signed by its predecessor. -/
structure Slh where
  root : Key
  blocks : List SlhBlock
deriving DecidableEq

/-- `SecuredLinkedList::root_key`. -/
def Slh.rootKey (c : Slh) : Key := c.root

/-- `SecuredLinkedList::last_key`. -/
def Slh.lastKey (c : Slh) : Key := ((c.blocks.getLast?).map SlhBlock.key).getD c.root

/-- All keys of a chain, root first. -/
def Slh.keys (c : Slh) : List Key := c.root :: c.blocks.map SlhBlock.key

/-- `SecuredLinkedList::has_key`. -/
def Slh.hasKey (c : Slh) (k : Key) : Bool := c.keys.contains k

/-- Edge verification walk of `self_verify`: each block's signature is
by the preceding key over this block's key. -/
def slhVerifyFrom : Key → List SlhBlock → Bool
  | _, [] => true
  | parent, b :: rest =>
    (decide (b.sig.signer = parent) && decide (b.sig.payload = b.key)) &&
      slhVerifyFrom b.key rest

/-- Modelled from the spec: `SecuredLinkedList::self_verify` — every
edge verifies under its parent key. -/
def Slh.selfVerify (c : Slh) : Bool := slhVerifyFrom c.root c.blocks

/-- Blocks of a chain up to and including the one carrying `toKey`. -/
def takeToKey (toKey : Key) : List SlhBlock → Option (List SlhBlock)
  | [] => none
  | b :: rest =>
    if b.key = toKey then some [b]
    else (takeToKey toKey rest).map (fun l => b :: l)

/-- Walk helper for `get_proof_chain`: drop links until `fromKey` is
reached, then cut at `toKey`. -/
def segmentGo (fromKey toKey : Key) : Key → List SlhBlock → Option Slh
  | root, blocks =>
    if root = fromKey then
      if toKey = fromKey then some { root := fromKey, blocks := [] }
      else (takeToKey toKey blocks).map (fun bs => { root := fromKey, blocks := bs })
    else
      match blocks with
      | [] => none
      | b :: rest => segmentGo fromKey toKey b.key rest

/-- Modelled from the spec: `SecuredLinkedList::get_proof_chain` on a
linear chain — the minimal sub-chain from `fromKey` to `toKey`. -/
def Slh.segment (c : Slh) (fromKey toKey : Key) : Option Slh :=
  segmentGo fromKey toKey c.root c.blocks

/-- A peer: a name in the address space plus a socket address. -/
structure Peer where
  name : List Bool
  addr : Addr
deriving DecidableEq

/-- `Prefix::matches`: the prefix's bits lead the name's bits. -/
def pfxMatches (p : List Bool) (n : List Bool) : Bool := p.isPrefixOf n

/-- A `SectionAuthorityProvider`: prefix, section key (the public key of
the BLS key set) and the elder roster. -/
structure Sap where
  pfx : List Bool
  sectionKey : Key
  elders : List Peer
deriving DecidableEq

/-- `SectionAuthorityProvider::contains_elder`. -/
def Sap.containsElder (s : Sap) (n : List Bool) : Bool :=
  s.elders.any (fun p => p.name == n)

/-- `KeyedSig` from messaging: the declared public key plus the
signature value. -/
structure KeyedSig where
  publicKey : Key
  signature : KSig Sap
deriving DecidableEq

/-- `SectionAuth<SectionAuthorityProvider>`: a SAP together with its
section signature. -/
structure SectionAuthSap where
  value : Sap
  sig : KeyedSig
deriving DecidableEq

/-- Modelled from the spec: `SectionAuth::self_verify` — the signature
signs the serialised SAP under the declared public key. -/
def SectionAuthSap.selfVerify (s : SectionAuthSap) : Bool :=
  decide (s.sig.signature.signer = s.sig.publicKey) &&
    decide (s.sig.signature.payload = s.value)

/-- `SectionAuth::section_key` for a signed SAP. -/
def SectionAuthSap.sectionKey (s : SectionAuthSap) : Key := s.value.sectionKey

/-- Association-list lookup by bit-string key for prefix-map entries. -/
def pmGet (k : List Bool) : List (List Bool × SectionAuthSap) → Option SectionAuthSap
  | [] => none
  | (k₀, v₀) :: rest => if k = k₀ then some v₀ else pmGet k rest

/-- Association-list insert-or-replace by bit-string key. -/
def pmInsert (k : List Bool) (v : SectionAuthSap) :
    List (List Bool × SectionAuthSap) → List (List Bool × SectionAuthSap)
  | [] => [(k, v)]
  | (k₀, v₀) :: rest =>
    if k = k₀ then (k, v) :: rest else (k₀, v₀) :: pmInsert k v rest

/-- Modelled from the spec: `NetworkPrefixMap` — the genesis key plus a
map from prefix to the latest verified signed SAP. -/
structure PfxMap where
  genKey : Key
  entries : List (List Bool × SectionAuthSap)
deriving DecidableEq

/-- `NetworkPrefixMap::new`. -/
def PfxMap.init (k : Key) : PfxMap := { genKey := k, entries := [] }

/-- `NetworkPrefixMap::genesis_key`. -/
def PfxMap.genesisKey (pm : PfxMap) : Key := pm.genKey

/-- Modelled from the spec: `NetworkPrefixMap::verify_with_chain_and_update`
— admit the signed SAP only if it self-verifies, the proof chain ends in
its section key, the proof chain verifies, and the proof chain's root is
reachable in the caller-supplied trusted chain; storing is novel iff the
prefix is new or carried a different SAP.  Returns whether it was stored
together with the updated map. -/
def PfxMap.verifyWithChainAndUpdate (pm : PfxMap) (sap : SectionAuthSap)
    (proofChain : Slh) (trusted : Slh) : Except Er (Bool × PfxMap) :=
  if ¬ sap.selfVerify then .error .untrustedSectionAuthProvider
  else if proofChain.lastKey ≠ sap.sectionKey then .error .untrustedSectionAuthProvider
  else if ¬ proofChain.selfVerify then .error .untrustedProofChain
  else if ¬ trusted.hasKey proofChain.rootKey then .error .untrustedProofChain
  else
    match pmGet sap.value.pfx pm.entries with
    | some existing =>
      if existing = sap then .ok (false, pm)
      else .ok (true, { pm with entries := pmInsert sap.value.pfx sap pm.entries })
    | none => .ok (true, { pm with entries := pmInsert sap.value.pfx sap pm.entries })

/-- Modelled from the spec: `NetworkPrefixMap::update` — verify against
the provided proof chain itself and store. -/
def PfxMap.update (pm : PfxMap) (sap : SectionAuthSap) (proofChain : Slh) :
    Except Er (Bool × PfxMap) :=
  pm.verifyWithChainAndUpdate sap proofChain proofChain

/-- Common-prefix length of two bit strings. -/
def commonLen : List Bool → List Bool → Nat
  | a :: as, b :: bs => if a = b then commonLen as bs + 1 else 0
  | _, _ => 0

/-- Modelled from the spec: `NetworkPrefixMap::closest_or_opposite` with
no exclusion — the stored SAP whose prefix shares the longest common
prefix with the name. -/
def PfxMap.closestOrOpposite (pm : PfxMap) (name : List Bool) :
    Option SectionAuthSap :=
  (pm.entries.foldl
    (fun best e =>
      match best with
      | none => some e
      | some b => if commonLen b.1 name < commonLen e.1 name then some e else best)
    none).map Prod.snd

/-! Section: NetworkKnowledge (`mod.rs`) -/

/-- `NodeState` as the network-knowledge code reads it: the node's name
and membership state (peer address and previous name elided). -/
structure NkNodeState where
  name : List Bool
  state : MShipState
deriving DecidableEq

/-- `SectionAuth<NodeState>`: a node state with its section
signature. -/
structure AuthedNodeState where
  value : NkNodeState
  sig : KSig NkNodeState
deriving DecidableEq

/-- Modelled from the spec: `NodeState::verify` — the state verifies
under some key present in the chain. -/
def AuthedNodeState.verify (a : AuthedNodeState) (chain : Slh) : Bool :=
  chain.hasKey a.sig.signer && decide (a.sig.payload = a.value)

/-- Modelled from the spec: `SectionPeers::update` — replace the entry
for the name when the incoming state differs; report whether anything
changed. -/
def peersUpdateOne (peers : List AuthedNodeState) (a : AuthedNodeState) :
    List AuthedNodeState × Bool :=
  match peers.find? (fun b => b.value.name == a.value.name) with
  | some b =>
    if b = a then (peers, false)
    else (peers.map (fun x => if x.value.name == a.value.name then a else x), true)
  | none => (peers ++ [a], true)

/-- Modelled from the spec: `SectionPeers::retain` — keep only members
whose name matches the prefix. -/
def peersRetain (pfx : List Bool) (peers : List AuthedNodeState) :
    List AuthedNodeState :=
  peers.filter (fun a => pfxMatches pfx a.value.name)

/-- Modelled from the spec: `SectionPeers::prune_members_archive` —
drop entries whose signing key is absent from the chain. -/
def peersPrune (chain : Slh) (peers : List AuthedNodeState) :
    List AuthedNodeState :=
  peers.filter (fun a => chain.hasKey a.sig.signer)

/-- The `NetworkKnowledge` struct of `mod.rs`.  The all-sections DAG is
modelled as the collection of linear chains joined into it. -/
structure NetworkKnowledge where
  genesisKey : Key
  chain : Slh
  signedSap : SectionAuthSap
  sectionPeers : List AuthedNodeState
  pfxMap : PfxMap
  allSectionsChains : List Slh
deriving DecidableEq

/-- Whether an `Except` result is `ok`. -/
def exceptIsOk {α : Type} : Except Er α → Bool
  | .ok _ => true
  | .error _ => false

/-- `NetworkKnowledge::new`: check genesis key against the chain root,
the SAP signature key against the chain's last key, SAP self-verify,
SAP key coherence, chain self-verify, and the genesis key of any
provided prefix map; then seed the prefix map with our own SAP
(errors ignored) and build the value. -/
def NetworkKnowledge.new (genesisKey : Key) (chain : Slh)
    (signedSap : SectionAuthSap) (passedPfxMap : Option PfxMap) :
    Except Er NetworkKnowledge :=
  if genesisKey ≠ chain.rootKey then .error .untrustedProofChain
  else if signedSap.sig.publicKey ≠ chain.lastKey then
    .error .untrustedSectionAuthProvider
  else if ¬ signedSap.selfVerify then .error .untrustedSectionAuthProvider
  else if signedSap.sig.publicKey ≠ signedSap.sectionKey then
    .error .untrustedSectionAuthProvider
  else if ¬ chain.selfVerify then .error .untrustedProofChain
  else
    match
      (match passedPfxMap with
       | some pm =>
         if pm.genesisKey ≠ genesisKey then .error (.invalidGenesisKey pm.genesisKey)
         else .ok pm
       | none => .ok (PfxMap.init genesisKey) : Except Er PfxMap) with
    | .error e => .error e
    | .ok pm =>
      let pm2 :=
        match pm.update signedSap chain with
        | .ok r => r.2
        | .error _ => pm
      .ok { genesisKey := genesisKey, chain := chain, signedSap := signedSap
            sectionPeers := [], pfxMap := pm2, allSectionsChains := [chain] }

/-- `NetworkKnowledge::is_elder`: the name is in the current SAP's elder
roster. -/
def NetworkKnowledge.isElder (nk : NetworkKnowledge) (n : List Bool) : Bool :=
  nk.signedSap.value.containsElder n

/-- `get_proof_chain` over the all-sections collection: the first joined
chain containing a segment from `fromKey` to `toKey`. -/
def dagProofChain (dag : List Slh) (fromKey toKey : Key) : Except Er Slh :=
  match dag.filterMap (fun c => c.segment fromKey toKey) with
  | s :: _ => .ok s
  | [] => .error .keyNotFound

/-- `NetworkKnowledge::merge_members` (the state change): update each
provided member state that verifies against our chain, then retain only
members of our prefix; reports whether anything changed. -/
def NetworkKnowledge.mergeMembers (nk : NetworkKnowledge)
    (peers : List AuthedNodeState) : NetworkKnowledge × Bool :=
  let folded := peers.foldl
    (fun (acc : List AuthedNodeState × Bool) a =>
      if a.verify nk.chain then
        let r := peersUpdateOne acc.1 a
        (r.1, acc.2 || r.2)
      else acc)
    (nk.sectionPeers, false)
  ({ nk with sectionPeers := peersRetain nk.signedSap.value.pfx folded.1 }, folded.2)

/-- Final member-merge step of `update_knowledge_if_valid`: merge any
provided members, then return the SAP/chain-update flag. -/
def updateKnowledgeFinish (nk : NetworkKnowledge)
    (updatedMembers : Option (List AuthedNodeState)) (upd : Bool) :
    Except Er (NetworkKnowledge × Bool) :=
  match updatedMembers with
  | some ms => .ok ((nk.mergeMembers ms).1, upd)
  | none => .ok (nk, upd)

/-- `NetworkKnowledge::update_knowledge_if_valid`.  The
`section_keys_provider.key_share` lookup (whose source,
`section_keys.rs`, is not among the provided files) is modelled from the
spec as a predicate on section keys.  The flag computation reproduces
the code literally, including `we_are_an_adult` being reassigned to
`we_should_become_an_elder` (not its negation). -/
def NetworkKnowledge.updateKnowledgeIfValid (nk : NetworkKnowledge)
    (signedSap : SectionAuthSap) (proofChain : Slh)
    (updatedMembers : Option (List AuthedNodeState)) (ourName : List Bool)
    (keyShare : Key → Bool) : Except Er (NetworkKnowledge × Bool) :=
  match nk.pfxMap.verifyWithChainAndUpdate signedSap proofChain nk.chain with
  | .ok (true, pm) =>
    let nk1 := { nk with pfxMap := pm
                         allSectionsChains := nk.allSectionsChains ++ [proofChain] }
    let adult0 := ! nk1.isElder ourName
    let weAreAnAdult := if adult0 then signedSap.value.containsElder ourName else adult0
    let weHaveShare := if ! weAreAnAdult then keyShare signedSap.sectionKey else false
    let switchToNewSap := weAreAnAdult || weHaveShare
    if switchToNewSap && pfxMatches signedSap.value.pfx ourName then
      let retained := peersRetain signedSap.value.pfx nk1.sectionPeers
      match dagProofChain nk1.allSectionsChains nk1.genesisKey signedSap.sectionKey with
      | .error e => .error e
      | .ok sectionChain =>
        let nk2 := { nk1 with sectionPeers := peersPrune sectionChain retained
                              signedSap := signedSap
                              chain := sectionChain }
        updateKnowledgeFinish nk2 updatedMembers true
    else
      updateKnowledgeFinish nk1 updatedMembers true
  | .ok (false, pm) => updateKnowledgeFinish { nk with pfxMap := pm } updatedMembers false
  | .error _ => updateKnowledgeFinish nk updatedMembers false

/-! Section: Claim C3 -/

theorem networkKnowledgeNew_error_kinds (genesisKey : Key) (chain : Slh)
    (signedSap : SectionAuthSap) (pmo : Option PfxMap) (e : Er)
    (h : NetworkKnowledge.new genesisKey chain signedSap pmo = .error e) :
    e = .untrustedProofChain ∨ e = .untrustedSectionAuthProvider ∨
    ∃ k, e = .invalidGenesisKey k := by
  unfold NetworkKnowledge.new at h
  cases pmo with
  | none => split_ifs at h <;> simp_all
  | some pm =>
    by_cases hg : pm.genesisKey = genesisKey <;> split_ifs at h <;> simp_all <;>
      exact Or.inr (Or.inr ⟨pm.genesisKey, h.symm⟩)

/-- C3: `NetworkKnowledge::new` succeeds iff the genesis key equals the
chain's root key, the signed SAP's signature key equals both the chain's
last key and the SAP's own section key, SAP and chain self-verify, and
any provided prefix map carries the same genesis key; on any failed
check it returns an `UntrustedProofChain`,
`UntrustedSectionAuthProvider` or `InvalidGenesisKey` error and
constructs no knowledge value. -/
theorem c3_network_knowledge_new (genesisKey : Key) (chain : Slh)
    (signedSap : SectionAuthSap) (pmo : Option PfxMap) :
    (exceptIsOk (NetworkKnowledge.new genesisKey chain signedSap pmo) = true ↔
      (genesisKey = chain.rootKey ∧ signedSap.sig.publicKey = chain.lastKey ∧
       signedSap.selfVerify = true ∧
       signedSap.sig.publicKey = signedSap.sectionKey ∧
       chain.selfVerify = true ∧ ∀ pm ∈ pmo, pm.genesisKey = genesisKey)) ∧
    (∀ e, NetworkKnowledge.new genesisKey chain signedSap pmo = .error e →
      e = .untrustedProofChain ∨ e = .untrustedSectionAuthProvider ∨
      ∃ k, e = .invalidGenesisKey k) := by
  constructor
  · unfold NetworkKnowledge.new
    cases pmo with
    | none => split_ifs <;> simp_all [exceptIsOk]
    | some pm =>
      by_cases hg : pm.genesisKey = genesisKey <;> split_ifs <;>
        simp_all [exceptIsOk]
  · exact networkKnowledgeNew_error_kinds genesisKey chain signedSap pmo

/-- Concrete SAP for the C3 witness. -/
def c3Sap : Sap := { pfx := [], sectionKey := 7, elders := [] }

/-- Concrete signed SAP for the C3 witness. -/
def c3Signed : SectionAuthSap :=
  { value := c3Sap
    sig := { publicKey := 7, signature := { signer := 7, payload := c3Sap } } }

/-- Concrete one-key chain for the C3 witness. -/
def c3Chain : Slh := { root := 7, blocks := [] }

/-- Witness for C3: a coherent genesis key, chain and signed SAP build a
knowledge value, and a mismatched genesis key is rejected as an
untrusted proof chain. -/
theorem c3_network_knowledge_new_witness :
    exceptIsOk (NetworkKnowledge.new 7 c3Chain c3Signed none) = true ∧
    NetworkKnowledge.new 8 c3Chain c3Signed none = .error .untrustedProofChain :=
  ⟨(c3_network_knowledge_new 7 c3Chain c3Signed none).1.mpr
    ⟨rfl, rfl, rfl, rfl, rfl, by simp⟩, rfl⟩

/-! Section: Claim C5 -/

/-- Name of the node in the C5 scenario. -/
def c5OurName : List Bool := [true]

/-- The node's current SAP in the C5 scenario: it is not an elder. -/
def c5OldSap : Sap := { pfx := [], sectionKey := 0, elders := [] }

/-- Signed form of `c5OldSap`. -/
def c5OldSigned : SectionAuthSap :=
  { value := c5OldSap
    sig := { publicKey := 0, signature := { signer := 0, payload := c5OldSap } } }

/-- Current one-key section chain in the C5 scenario. -/
def c5Chain : Slh := { root := 0, blocks := [] }

/-- The node's network knowledge before the update in the C5
scenario. -/
def c5Nk : NetworkKnowledge :=
  { genesisKey := 0, chain := c5Chain, signedSap := c5OldSigned
    sectionPeers := [], pfxMap := { genKey := 0, entries := [] }
    allSectionsChains := [c5Chain] }

/-- The incoming SAP in the C5 scenario: its elder roster contains the
node. -/
def c5NewSap : Sap :=
  { pfx := [true], sectionKey := 1, elders := [{ name := [true], addr := 9 }] }

/-- Signed form of `c5NewSap`. -/
def c5NewSigned : SectionAuthSap :=
  { value := c5NewSap
    sig := { publicKey := 1, signature := { signer := 1, payload := c5NewSap } } }

/-- Proof chain from the genesis key to the new section key in the C5
scenario. -/
def c5ProofChain : Slh :=
  { root := 0, blocks := [{ key := 1, sig := { signer := 0, payload := 1 } }] }

/-- C5 (code bug): at a concrete input where the node is not a current
elder, is listed as an elder of the incoming SAP, holds no key share for
the new section key, and the new prefix matches its name,
`update_knowledge_if_valid` switches the current signed SAP — although
the node is not an adult in the new topology and has no key share, which
the claim (and the code's own comments) say is required for the
switch.  The cause is `we_are_an_adult` being assigned
`we_should_become_an_elder` instead of its negation. -/
theorem c5_update_knowledge_bug :
    ((c5Nk.updateKnowledgeIfValid c5NewSigned c5ProofChain none c5OurName
        (fun _ => false)).toOption.map (fun r => r.1.signedSap)) =
      some c5NewSigned ∧
    c5NewSap.containsElder c5OurName = true ∧
    (fun _ : Key => false) c5NewSigned.sectionKey = false ∧
    c5Nk.signedSap ≠ c5NewSigned := by
  refine ⟨by decide, by decide, rfl, by decide⟩

/-! Section: Join state machine (`join.rs`) -/

/-- MIN_ADULT_AGE. -/
def MIN_ADULT_AGE : Nat := 5

/-- The joining node's identity: name bits, age (encoded in the name)
and socket address. -/
structure NodeInfo where
  name : List Bool
  age : Nat
  addr : Addr
deriving DecidableEq

/-- A BLS signature share as carried by `ApprovalShare`: the public key
of the key set, its threshold, and the share's index. -/
structure SigShare where
  pkSetKey : Key
  threshold : Nat
  index : Nat
deriving DecidableEq

/-- The `JoinResponse` variants handled by the join loop. -/
inductive JoinResponse where
  | rejectedNodeNotReachable (addr : Addr)
  | rejectedJoinsDisallowed
  | approval (sectionAuth : SectionAuthSap) (genesisKey : Key)
      (sectionChain : Slh) (nodeState : AuthedNodeState)
  | approvalShare (nodeState : NkNodeState) (sigShare : SigShare)
      (sectionAuth : Sap) (sectionSigned : KeyedSig) (sectionChain : Slh)
  | retry (sectionAuth : Sap) (sectionSigned : KeyedSig) (proofChain : Slh)
      (expectedAge : Nat)
  | redirect (sectionAuth : Sap)
  | resourceChallenge (dataSize : Nat) (difficulty : Nat) (nonce : Nat)
      (nonceSig : Nat)
deriving DecidableEq

/-- Modelled from the spec: the state of one `SignatureAggregator`
keyed by section key — the distinct share indices collected so far and
whether aggregation already succeeded. -/
structure Aggregator where
  indices : List Nat
  done : Bool
deriving DecidableEq

/-- Outcome of `SignatureAggregator::add`. -/
inductive AggResult where
  | aggregated
  | notEnoughShares
  | alreadyAggregated
deriving DecidableEq

/-- Modelled from the spec: `SignatureAggregator::add` — collect
distinct valid shares and combine once strictly more than the threshold
have been seen; adding after success reports `AlreadyAggregated`. -/
def Aggregator.add (ag : Aggregator) (share : SigShare) : Aggregator × AggResult :=
  if ag.done then (ag, .alreadyAggregated)
  else
    let indices :=
      if ag.indices.contains share.index then ag.indices
      else share.index :: ag.indices
    if share.threshold + 1 ≤ indices.length then
      ({ indices := indices, done := true }, .aggregated)
    else ({ ag with indices := indices }, .notEnoughShares)

/-- One outgoing `JoinRequest`: its section key, recipients, and which
optional payloads it carries. -/
structure SentReq where
  sectionKey : Key
  recipients : List Peer
  hasResourceProof : Bool
  hasAggregated : Bool
deriving DecidableEq

/-- The mutable state of the join loop: the `Join` struct fields
together with the `section_key`, `recipients` and `used_recipient_saps`
locals of `Join::join`. -/
structure JoinState where
  node : NodeInfo
  pfx : List Bool
  pfxMap : PfxMap
  initialRecipients : List Peer
  sectionKey : Key
  usedRecipients : List (Addr × Key)
  aggregators : List (Key × Aggregator)
  nodeStateSerialized : Option NkNodeState
  aggregated : Bool
deriving DecidableEq

/-- Result of handling one join response: terminate successfully,
terminate with an error, or continue with a new state having sent the
given requests. -/
inductive StepOut where
  | finished (node : NodeInfo) (nk : NetworkKnowledge)
  | failed (e : Er)
  | next (s : JoinState) (sent : List SentReq)
deriving DecidableEq

/-- Bit-extraction loop of the Retry arm: starting from
`cur = expected_age / 2`, push `cur % 2 == 1` and halve until zero. -/
def derivePfxGo (cur : Nat) (acc : List Bool) : List Bool :=
  if h : cur = 0 then acc
  else derivePfxGo (cur / 2) (acc ++ [decide (cur % 2 = 1)])
termination_by cur
decreasing_by exact Nat.div_lt_self (Nat.pos_of_ne_zero h) (by omega)

/-- The prefix the joiner derives from `expected_age`. -/
def deriveNewPfx (expectedAge : Nat) : List Bool :=
  derivePfxGo (expectedAge / 2) []

/-- Modelled from the spec: `ed25519::gen_keypair(range, age)` plus
`NodeInfo::new` — a deterministic stand-in generating a name inside the
prefix with the requested age. -/
def genNodeInPfx (pfx : List Bool) (age : Nat) (addr : Addr) : NodeInfo :=
  { name := pfx, age := age, addr := addr }

/-- The de-duplicating recipient scan of the Redirect arm:
`filter(|peer| used_recipient_saps.insert((addr, key)))`. -/
def redirectFilter (elders : List Peer) (key : Key)
    (used : List (Addr × Key)) : List Peer × List (Addr × Key) :=
  elders.foldl
    (fun (acc : List Peer × List (Addr × Key)) p =>
      if acc.2.contains (p.addr, key) then acc
      else (acc.1 ++ [p], acc.2 ++ [(p.addr, key)]))
    ([], used)

/-- One iteration of the `Join::join` response loop (lines 160–499 of
`join.rs`): handle a single received `JoinResponse`.  Backoff sleeps are
timing-only and elided; message sends are recorded as `SentReq`
values. -/
def joinStep (s : JoinState) (resp : JoinResponse) (sender : Peer) : StepOut :=
  match resp with
  | .rejectedNodeNotReachable a => .failed (.nodeNotReachable a)
  | .rejectedJoinsDisallowed => .failed .tryJoinLater
  | .approval sectionAuth genesisKey sectionChain nodeState =>
    if nodeState.value.name ≠ s.node.name then .next s []
    else if ¬ nodeState.verify sectionChain then .next s []
    else
      match NetworkKnowledge.new genesisKey sectionChain sectionAuth (some s.pfxMap) with
      | .ok nk => .finished s.node nk
      | .error e => .failed e
  | .approvalShare nodeState sigShare sectionAuth sectionSigned sectionChain =>
    let signedSap : SectionAuthSap := { value := sectionAuth, sig := sectionSigned }
    let pm :=
      match s.pfxMap.update signedSap sectionChain with
      | .ok r => r.2
      | .error _ => s.pfxMap
    let serialized := s.nodeStateSerialized.getD nodeState
    let sigPk := sigShare.pkSetKey
    let ag := (alGet sigPk s.aggregators).getD { indices := [], done := false }
    let agRes := ag.add sigShare
    let s1 := { s with pfxMap := pm
                       nodeStateSerialized := some serialized
                       aggregators := alInsert sigPk agRes.1 s.aggregators }
    match agRes.2 with
    | .aggregated =>
      let s2 := { s1 with aggregated := true }
      match s2.pfxMap.closestOrOpposite s2.node.name with
      | none => .next s2 []
      | some sap =>
        .next s2 [{ sectionKey := sigShare.pkSetKey, recipients := sap.value.elders
                    hasResourceProof := false, hasAggregated := true }]
    | .notEnoughShares => .next s1 []
    | .alreadyAggregated =>
      if sigPk ≠ s1.sectionKey then
        .next s1 [{ sectionKey := s1.sectionKey, recipients := s1.initialRecipients
                    hasResourceProof := false, hasAggregated := false }]
      else .next s1 []
  | .retry sectionAuth sectionSigned proofChain expectedAge =>
    if ¬ pfxMatches sectionAuth.pfx s.node.name then .next s []
    else
      match s.pfxMap.update { value := sectionAuth, sig := sectionSigned } proofChain with
      | .error _ => .next s []
      | .ok (isNewSap, pm) =>
        let s1 := { s with pfxMap := pm }
        if s.node.age ≠ expectedAge ∧
            (expectedAge < s.node.age ∨ s.node.age ≤ MIN_ADULT_AGE) ∧
            s.aggregated = false then
          let node2 := genNodeInPfx (deriveNewPfx expectedAge) expectedAge s.node.addr
          .next { s1 with node := node2, sectionKey := sectionAuth.sectionKey }
            [{ sectionKey := sectionAuth.sectionKey, recipients := sectionAuth.elders
               hasResourceProof := false, hasAggregated := false }]
        else if ¬ isNewSap then .next s1 []
        else
          .next { s1 with sectionKey := sectionAuth.sectionKey }
            [{ sectionKey := sectionAuth.sectionKey, recipients := sectionAuth.elders
               hasResourceProof := false, hasAggregated := false }]
  | .redirect sectionAuth =>
    if sectionAuth.elders.isEmpty then .next s []
    else if ¬ pfxMatches sectionAuth.pfx s.node.name then .next s []
    else
      let r := redirectFilter sectionAuth.elders sectionAuth.sectionKey s.usedRecipients
      if r.1.isEmpty then .next { s with usedRecipients := r.2 } []
      else
        .next { s with usedRecipients := r.2
                       sectionKey := sectionAuth.sectionKey
                       pfx := sectionAuth.pfx }
          [{ sectionKey := sectionAuth.sectionKey, recipients := r.1
             hasResourceProof := false, hasAggregated := false }]
  | .resourceChallenge _ _ _ _ =>
    .next s [{ sectionKey := s.sectionKey, recipients := [sender]
               hasResourceProof := true, hasAggregated := false }]

/-- The join response loop over a finite stream of received responses.
An exhausted stream models the sender side closing, which the code
reports as `InvalidState`.  Returns the final result together with all
requests sent while looping. -/
def joinLoop : JoinState → List (JoinResponse × Peer) →
    Except Er (NodeInfo × NetworkKnowledge) × List SentReq
  | _, [] => (.error .invalidState, [])
  | s, (r, sender) :: rest =>
    match joinStep s r sender with
    | .finished node nk => (.ok (node, nk), [])
    | .failed e => (.error e, [])
    | .next s2 sent =>
      let res := joinLoop s2 rest
      (res.1, sent ++ res.2)

/-! Section: Claim C9 -/

theorem redirectFilter_eq (key : Key) (elders : List Peer) :
    ∀ (pre : List Peer) (used : List (Addr × Key)),
      (elders.map Peer.addr).Nodup →
      List.foldl
        (fun (acc : List Peer × List (Addr × Key)) p =>
          if acc.2.contains (p.addr, key) then acc
          else (acc.1 ++ [p], acc.2 ++ [(p.addr, key)])) (pre, used) elders =
      (pre ++ elders.filter (fun p => ! used.contains (p.addr, key)),
       used ++ (elders.filter (fun p => ! used.contains (p.addr, key))).map
         (fun p => (p.addr, key))) := by
  induction elders with
  | nil => intro pre used _; simp
  | cons p rest ih =>
    intro pre used hnodup
    obtain ⟨hhd, htl⟩ := List.nodup_cons.mp (List.map_cons .. ▸ hnodup)
    rw [List.foldl_cons]
    by_cases hc : used.contains (p.addr, key)
    · have hc' : (p.addr, key) ∈ used := by simpa using hc
      rw [if_pos hc, ih pre used htl]
      simp [List.filter_cons, hc']
    · have hc' : (p.addr, key) ∉ used := by simpa using hc
      rw [if_neg hc, ih (pre ++ [p]) (used ++ [(p.addr, key)]) htl]
      have hcong : rest.filter
            (fun q => ! (used ++ [(p.addr, key)]).contains (q.addr, key)) =
          rest.filter (fun q => ! used.contains (q.addr, key)) := by
        apply List.filter_congr
        intro q hq
        have haddr : q.addr ≠ p.addr := by
          intro he
          exact hhd (he ▸ List.mem_map_of_mem Peer.addr hq)
        simp [haddr]
      rw [hcong]
      simp [List.filter_cons, hc']

/-- C9: a Redirect with an empty elder list or a prefix not matching
the joiner's name produces no outgoing message; otherwise a JoinRequest
with the SAP's section key goes exactly to the elder peers whose
(address, section key) pair was not already used, and when every pair
was used nothing is sent.  The elders of a SAP have distinct
addresses. -/
theorem c9_redirect (s : JoinState) (sa : Sap) (sender : Peer)
    (hnodup : (sa.elders.map Peer.addr).Nodup) :
    (sa.elders = [] → joinStep s (.redirect sa) sender = .next s []) ∧
    (pfxMatches sa.pfx s.node.name = false →
      joinStep s (.redirect sa) sender = .next s []) ∧
    (sa.elders ≠ [] → pfxMatches sa.pfx s.node.name = true →
      (sa.elders.filter
          (fun p => ! s.usedRecipients.contains (p.addr, sa.sectionKey)) = [] →
        joinStep s (.redirect sa) sender = .next s []) ∧
      (∀ newRecips,
        newRecips = sa.elders.filter
          (fun p => ! s.usedRecipients.contains (p.addr, sa.sectionKey)) →
        newRecips ≠ [] →
        joinStep s (.redirect sa) sender =
          .next { s with
                  usedRecipients :=
                    s.usedRecipients ++ newRecips.map (fun p => (p.addr, sa.sectionKey)),
                  sectionKey := sa.sectionKey,
                  pfx := sa.pfx }
            [{ sectionKey := sa.sectionKey, recipients := newRecips
               hasResourceProof := false, hasAggregated := false }])) := by
  have hfold := redirectFilter_eq sa.sectionKey sa.elders [] s.usedRecipients hnodup
  refine ⟨?_, ?_, ?_⟩
  · intro he
    simp [joinStep, redirectFilter, he]
  · intro hpm
    cases he : sa.elders.isEmpty <;> simp [joinStep, redirectFilter, he, hpm]
  · intro he hpm
    have hne : sa.elders.isEmpty = false := by
      cases hel : sa.elders with
      | nil => exact absurd hel he
      | cons a l => simp [hel]
    constructor
    · intro hfilter
      simp only [joinStep, redirectFilter]
      rw [hfold]
      simp only [List.nil_append]
      rw [hfilter]
      simp [hne, hpm]
    · intro newRecips hdef hnonempty
      have hnr : newRecips.isEmpty = false := by
        cases hn2 : newRecips with
        | nil => exact absurd hn2 hnonempty
        | cons a l => simp [hn2]
      simp only [joinStep, redirectFilter]
      rw [hfold, ← hdef]
      simp [hne, hpm, hnr]

/-- Join state for the C9 and C6 witnesses: a fresh joiner named `[1]`
of age 5 targeting section key 0. -/
def c9State : JoinState :=
  { node := { name := [true], age := 5, addr := 3 }
    pfx := []
    pfxMap := PfxMap.init 0
    initialRecipients := [{ name := [], addr := 1 }]
    sectionKey := 0
    usedRecipients := [(4, 2)]
    aggregators := []
    nodeStateSerialized := none
    aggregated := false }

/-- Redirect SAP for the C9 witness: two elders, one of which has an
already-used (address, key) pair. -/
def c9Sap : Sap :=
  { pfx := [true], sectionKey := 2,
    elders := [{ name := [true, true], addr := 4 }, { name := [true, false], addr := 6 }] }

/-- Witness for C9: the empty-elders Redirect is ignored, and the
two-elder Redirect sends one request, with the new section key, exactly
to the elder whose (address, key) pair is fresh. -/
theorem c9_redirect_witness :
    joinStep c9State (.redirect { pfx := [true], sectionKey := 2, elders := [] })
        { name := [], addr := 1 } = .next c9State [] ∧
    joinStep c9State (.redirect c9Sap) { name := [], addr := 1 } =
      .next
        { c9State with
          usedRecipients := [(4, 2), (6, 2)], sectionKey := 2, pfx := [true] }
        [{ sectionKey := 2, recipients := [{ name := [true, false], addr := 6 }],
           hasResourceProof := false, hasAggregated := false }] :=
  ⟨(c9_redirect c9State { pfx := [true], sectionKey := 2, elders := [] }
      { name := [], addr := 1 } (by decide)).1 rfl,
   (((c9_redirect c9State c9Sap { name := [], addr := 1 } (by decide)).2.2
      (by decide) rfl).2 [{ name := [true, false], addr := 6 }] (by decide)
      (by decide))⟩

/-! Section: Claim C6 -/

theorem pfxMatches_self (p : List Bool) : pfxMatches p p = true := by
  induction p with
  | nil => rfl
  | cons b rest ih => simp [pfxMatches, List.isPrefixOf]

/-- The node in the retry-arm state after a step, when the loop
continues. -/
def StepOut.nodeAfter : StepOut → Option NodeInfo
  | .next s _ => some s.node
  | _ => none

/-- How many requests a step sent, when the loop continues. -/
def StepOut.sentCount : StepOut → Nat
  | .next _ l => l.length
  | _ => 0

/-- Sender peer used in the C6 scenarios. -/
def c6Sender : Peer := { name := [], addr := 1 }

/-- Retry SAP whose prefix does not match the joiner. -/
def c6WrongSap : Sap :=
  { pfx := [false], sectionKey := 2, elders := [{ name := [false], addr := 8 }] }

/-- Signature of `c6WrongSap`. -/
def c6WrongSig : KeyedSig :=
  { publicKey := 2, signature := { signer := 2, payload := c6WrongSap } }

/-- Retry SAP whose prefix matches the joiner. -/
def c6RightSap : Sap :=
  { pfx := [true], sectionKey := 2, elders := [{ name := [true, true], addr := 4 }] }

/-- Signature of `c6RightSap`. -/
def c6RightSig : KeyedSig :=
  { publicKey := 2, signature := { signer := 2, payload := c6RightSap } }

/-- One-key proof chain for the C6 retries. -/
def c6Chain : Slh := { root := 2, blocks := [] }

/-- The C6 counterexample state: the joiner has age 6 (an adult, greater
than MIN_ADULT_AGE but below the expected age). -/
def c6AgeState : JoinState :=
  { c9State with node := { name := [true], age := 6, addr := 3 } }

/-- Counterexample to C6 as stated: on a matching-prefix Retry with
`expected_age = 98`, a joiner of age 6 (which differs from 98, with
aggregation not succeeded) does NOT regenerate its keypair — the code
additionally requires the age to be above the expected age or at most
MIN_ADULT_AGE — yet it resends, keeping age 6. -/
theorem c6_retry_counterexample :
    (joinStep c6AgeState (.retry c6RightSap c6RightSig c6Chain 98)
        c6Sender).nodeAfter = some c6AgeState.node ∧
    (joinStep c6AgeState (.retry c6RightSap c6RightSig c6Chain 98)
        c6Sender).sentCount = 1 ∧
    c6AgeState.node.age = 6 ∧ c6AgeState.aggregated = false ∧
    MIN_ADULT_AGE < c6AgeState.node.age := by
  refine ⟨by decide, by decide, rfl, rfl, by decide⟩

/-- C6 (amended): a wrong-prefix Retry triggers no resend; on a
matching-prefix Retry accepted by the prefix map, if the joiner's age
differs from `expected_age` AND is either above it or at most
MIN_ADULT_AGE (and aggregation has not succeeded), the joiner
regenerates a keypair whose name has age `expected_age` and lies in the
prefix derived by pushing the low bit of `cur = expected_age / 2` and
halving until zero, then resends a JoinRequest with the SAP's section
key to the SAP's elders; given one wrong-prefix and one right-prefix
Retry, exactly one further JoinRequest is emitted. -/
theorem c6_retry (s : JoinState) (sa : Sap) (sg : KeyedSig) (pc : Slh)
    (ea : Nat) (sender : Peer) :
    (pfxMatches sa.pfx s.node.name = false →
      joinStep s (.retry sa sg pc ea) sender = .next s []) ∧
    (pfxMatches sa.pfx s.node.name = true →
      ∀ isNew pm, s.pfxMap.update { value := sa, sig := sg } pc = .ok (isNew, pm) →
      s.node.age ≠ ea ∧ (ea < s.node.age ∨ s.node.age ≤ MIN_ADULT_AGE) ∧
        s.aggregated = false →
      joinStep s (.retry sa sg pc ea) sender =
        .next
          { s with
            pfxMap := pm,
            node := genNodeInPfx (deriveNewPfx ea) ea s.node.addr,
            sectionKey := sa.sectionKey }
          [{ sectionKey := sa.sectionKey, recipients := sa.elders,
             hasResourceProof := false, hasAggregated := false }] ∧
      (genNodeInPfx (deriveNewPfx ea) ea s.node.addr).age = ea ∧
      pfxMatches (deriveNewPfx ea)
        (genNodeInPfx (deriveNewPfx ea) ea s.node.addr).name = true) ∧
    (joinLoop c9State
      [(.retry c6WrongSap c6WrongSig c6Chain 5, c6Sender),
       (.retry c6RightSap c6RightSig c6Chain 5, c6Sender)]).2.length = 1 := by
  refine ⟨?_, ?_, by decide⟩
  · intro hpm
    simp [joinStep, hpm]
  · intro hpm isNew pm hupd hcond
    refine ⟨?_, rfl, pfxMatches_self _⟩
    simp only [joinStep, hpm]
    rw [hupd]
    simp [hcond]

/-- Result of the prefix-map update in the C6 witness scenario. -/
def c6UpdRes : Bool × PfxMap :=
  (PfxMap.update c9State.pfxMap { value := c6RightSap, sig := c6RightSig }
    c6Chain).toOption.getD (true, c9State.pfxMap)

/-- Witness for C6: a matching-prefix Retry with expected age 98 makes
the age-5 joiner regenerate a keypair of age 98 whose name lies in the
derived prefix, and resend to the SAP's elders with its section key. -/
theorem c6_retry_witness :
    joinStep c9State (.retry c6RightSap c6RightSig c6Chain 98) c6Sender =
      .next
        { c9State with
          pfxMap := c6UpdRes.2,
          node := genNodeInPfx (deriveNewPfx 98) 98 c9State.node.addr,
          sectionKey := c6RightSap.sectionKey }
        [{ sectionKey := c6RightSap.sectionKey, recipients := c6RightSap.elders,
           hasResourceProof := false, hasAggregated := false }] ∧
    (genNodeInPfx (deriveNewPfx 98) 98 c9State.node.addr).age = 98 ∧
    pfxMatches (deriveNewPfx 98)
      (genNodeInPfx (deriveNewPfx 98) 98 c9State.node.addr).name = true :=
  (c6_retry c9State c6RightSap c6RightSig c6Chain 98 c6Sender).2.1
    rfl c6UpdRes.1 c6UpdRes.2 rfl (by decide)

/-! Section: Claim C4 -/

/-- The errors the claim allows to surface from the join loop. -/
def isClaimTerminal : Er → Bool
  | .nodeNotReachable _ => true
  | .tryJoinLater => true
  | _ => false

/-- The errors the join loop can actually surface: the two rejection
errors, the stream-closed error, and the SAP/chain validation errors of
`NetworkKnowledge::new` raised while handling an Approval. -/
def surfacedErr (e : Er) : Prop :=
  e = .invalidState ∨ e = .tryJoinLater ∨ (∃ a, e = .nodeNotReachable a) ∨
  e = .untrustedProofChain ∨ e = .untrustedSectionAuthProvider ∨
  ∃ k, e = .invalidGenesisKey k

theorem joinStep_failed_classify (s : JoinState) (r : JoinResponse) (sender : Peer)
    (e : Er) (h : joinStep s r sender = .failed e) :
    (∃ a, r = .rejectedNodeNotReachable a ∧ e = .nodeNotReachable a) ∨
    (r = .rejectedJoinsDisallowed ∧ e = .tryJoinLater) ∨
    ((e = .untrustedProofChain ∨ e = .untrustedSectionAuthProvider ∨
      ∃ k, e = .invalidGenesisKey k) ∧
      ∃ sa gk ch ns, r = .approval sa gk ch ns) := by
  cases r with
  | rejectedNodeNotReachable a =>
    simp only [joinStep] at h
    injection h with h1
    exact Or.inl ⟨a, rfl, h1.symm⟩
  | rejectedJoinsDisallowed =>
    simp only [joinStep] at h
    injection h with h1
    exact Or.inr (Or.inl ⟨rfl, h1.symm⟩)
  | approval sa gk ch ns =>
    simp only [joinStep] at h
    split at h
    · simp at h
    · split at h
      · simp at h
      · split at h
        · simp at h
        · rename_i e₀ hnew
          injection h with h1
          subst h1
          exact Or.inr (Or.inr
            ⟨networkKnowledgeNew_error_kinds _ _ _ _ _ hnew, sa, gk, ch, ns, rfl⟩)
  | approvalShare ns sh sa sg ch =>
    simp only [joinStep] at h
    split at h
    · split at h <;> simp at h
    · simp at h
    · split at h <;> simp at h
  | retry sa sg pc ea =>
    simp only [joinStep] at h
    split at h
    · simp at h
    · split at h
      · simp at h
      · split at h
        · simp at h
        · split at h <;> simp at h
  | redirect sa =>
    simp only [joinStep] at h
    split at h
    · simp at h
    · split at h
      · simp at h
      · split at h <;> simp at h
  | resourceChallenge a b c d =>
    simp only [joinStep] at h
    simp at h

theorem joinLoop_error_classify (events : List (JoinResponse × Peer)) :
    ∀ (s : JoinState) (e : Er), (joinLoop s events).1 = .error e → surfacedErr e := by
  induction events with
  | nil =>
    intro s e h
    simp only [joinLoop] at h
    injection h with h1
    exact Or.inl h1.symm
  | cons ev rest ih =>
    intro s e h
    obtain ⟨r, sender⟩ := ev
    simp only [joinLoop] at h
    cases hstep : joinStep s r sender with
    | finished node nk => rw [hstep] at h; simp at h
    | failed e₂ =>
      rw [hstep] at h
      simp only [Except.error.injEq] at h
      subst h
      rcases joinStep_failed_classify s r sender e₂ hstep with
        ⟨a, -, he⟩ | ⟨-, he⟩ | ⟨hk, -⟩
      · exact Or.inr (Or.inr (Or.inl ⟨a, he⟩))
      · exact Or.inr (Or.inl he)
      · rcases hk with h' | h' | h'
        · exact Or.inr (Or.inr (Or.inr (Or.inl h')))
        · exact Or.inr (Or.inr (Or.inr (Or.inr (Or.inl h'))))
        · exact Or.inr (Or.inr (Or.inr (Or.inr (Or.inr h'))))
    | next s2 sent =>
      rw [hstep] at h
      exact ih s2 e h

/-- Concrete chain whose root differs from the claimed genesis key. -/
def c4BadChain : Slh := { root := 9, blocks := [] }

/-- Node state of the C4 approval, signed by the chain's key. -/
def c4NodeState : AuthedNodeState :=
  { value := { name := [true], state := .joined }
    sig := { signer := 9, payload := { name := [true], state := .joined } } }

/-- Counterexample to C4 as stated: an Approval response whose chain
fails validation makes the join loop return `UntrustedProofChain` — an
error that is neither `NodeNotReachable` nor `TryJoinLater` — instead of
continuing to retry. -/
theorem c4_surface_errors_counterexample :
    (joinLoop c9State [(.approval c3Signed 8 c4BadChain c4NodeState, c6Sender)]).1 =
      .error .untrustedProofChain ∧
    isClaimTerminal .untrustedProofChain = false := by
  refine ⟨rfl, rfl⟩

/-- C4 (amended): the join loop surfaces only `NodeNotReachable(addr)`
(exactly on a `Rejected(NodeNotReachable(addr))` response),
`TryJoinLater` (exactly on `Rejected(JoinsDisallowed)`), the SAP/chain
validation errors raised while building `NetworkKnowledge` from an
accepted Approval response, and `InvalidState` when the incoming stream
closes; every other failure while handling responses results in
continued retrying rather than an error return. -/
theorem c4_surface_errors (s : JoinState) (events : List (JoinResponse × Peer))
    (e : Er) :
    ((joinLoop s events).1 = .error e → surfacedErr e) ∧
    (∀ a sender rest,
      (joinLoop s ((.rejectedNodeNotReachable a, sender) :: rest)).1 =
        .error (.nodeNotReachable a)) ∧
    (∀ sender rest,
      (joinLoop s ((.rejectedJoinsDisallowed, sender) :: rest)).1 =
        .error .tryJoinLater) ∧
    (∀ r sender e₂, joinStep s r sender = .failed e₂ →
      (∃ a, r = .rejectedNodeNotReachable a ∧ e₂ = .nodeNotReachable a) ∨
      (r = .rejectedJoinsDisallowed ∧ e₂ = .tryJoinLater) ∨
      ((e₂ = .untrustedProofChain ∨ e₂ = .untrustedSectionAuthProvider ∨
        ∃ k, e₂ = .invalidGenesisKey k) ∧
        ∃ sa gk ch ns, r = .approval sa gk ch ns)) := by
  refine ⟨joinLoop_error_classify events s e, ?_, ?_,
    fun r sender e₂ h => joinStep_failed_classify s r sender e₂ h⟩
  · intro a sender rest
    simp [joinLoop, joinStep]
  · intro sender rest
    simp [joinLoop, joinStep]

/-- Witness for C4 at concrete inputs: the two rejection responses
terminate the loop with exactly the claimed errors. -/
theorem c4_surface_errors_witness :
    (joinLoop c9State [(.rejectedNodeNotReachable 4, c6Sender)]).1 =
      .error (.nodeNotReachable 4) ∧
    (joinLoop c9State [(.rejectedJoinsDisallowed, c6Sender)]).1 =
      .error .tryJoinLater :=
  ⟨(c4_surface_errors c9State [] .invalidState).2.1 4 c6Sender [],
   (c4_surface_errors c9State [] .invalidState).2.2.1 c6Sender []⟩

end SafeNet
